import Mathlib

/-!
Verification development for the TriCRF repository.

The data model (Data.h) and the reverse-communication driver of the L-BFGS
optimizer (LBFGS.h) are embedded directly from the inline C++ in the headers.
Components whose implementation files are not part of the header-only snapshot
(the bodies behind Param.h and the TriCRF forward/backward/Viterbi routines)
are modelled from the specification; each such definition carries a doc
comment starting with "Modelled from the spec:".

Machine floating point (double / long double) is embedded as exact rationals;
size_t as Nat; int as Int.
-/

namespace TriCRF

/-! ## Data model (src/src/Data.h, fully inline in the header) -/

/-- Event from Data.h: a label id, a default feature value and a sparse
feature vector of (feature id, value) pairs. -/
structure Event where
  label : ℕ
  fval : ℚ
  obs : List (ℕ × ℚ)
deriving DecidableEq

/-- StringEvent from Data.h: features are (name, value) pairs. -/
structure StringEvent where
  label : ℕ
  fval : ℚ
  obs : List (String × ℚ)
deriving DecidableEq

/-- Sequence from Data.h: a vector of events. -/
abbrev Sequence := List Event

/-- StringSequence from Data.h: a vector of string events. -/
abbrev StringSequence := List StringEvent

/-- TriSequence from Data.h: a topic event together with a per-token
sequence. -/
structure TriSequence where
  topic : Event
  seq : Sequence
deriving DecidableEq

/-- TriSequence::size from Data.h returns seq.size(): the length of the
per-token sequence only, never counting the topic event. -/
def TriSequence.size (t : TriSequence) : ℕ := t.seq.length

/-- TriStringSequence from Data.h: topic event plus a string sequence. -/
structure TriStringSequence where
  topic : Event
  seq : StringSequence
deriving DecidableEq

/-- TriStringSequence::size from Data.h returns seq.size(). -/
def TriStringSequence.size (t : TriStringSequence) : ℕ := t.seq.length

/-- The element.size() call made by Data::append, per element type. -/
class HasCount (T : Type) where
  csize : T → ℕ

instance : HasCount Sequence := ⟨List.length⟩
instance : HasCount StringSequence := ⟨List.length⟩
instance : HasCount TriSequence := ⟨TriSequence.size⟩
instance : HasCount TriStringSequence := ⟨TriStringSequence.size⟩

/-- Data from Data.h: a vector of sequences plus the running element count
n_element.  The C++ class declares `size_t n_element;` and has no
constructor, so a freshly constructed instance starts with an arbitrary
(indeterminate) value in this field; the embedding therefore exposes the
initial value as part of the state. -/
structure Data (T : Type) where
  items : List T
  nElement : ℕ
deriving DecidableEq

/-- Data::append from Data.h: push_back the element and add element.size()
to n_element. -/
def Data.append {T : Type} [HasCount T] (d : Data T) (e : T) : Data T :=
  { items := d.items ++ [e], nElement := d.nElement + HasCount.csize e }

/-- Data::size (inherited std::vector::size): number of stored sequences. -/
def Data.size {T : Type} (d : Data T) : ℕ := d.items.length

/-- Data::size_element from Data.h: returns n_element. -/
def Data.size_element {T : Type} (d : Data T) : ℕ := d.nElement

/-- Repeated Data::append over a list of sequences. -/
def Data.appendAll {T : Type} [HasCount T] (d : Data T) (l : List T) : Data T :=
  l.foldl Data.append d

/-- Sum of element.size() over a list of sequences. -/
def countSum {T : Type} [HasCount T] (l : List T) : ℕ :=
  (l.map HasCount.csize).sum

/-- A concrete two-event sequence. -/
def seqTwo : Sequence := [⟨0, 1, []⟩, ⟨0, 1, []⟩]

/-- A freshly constructed Data<Sequence> whose indeterminate n_element
happens to hold 7 (the source never initializes the field). -/
def freshData7 : Data Sequence := ⟨[], 7⟩

/-! ## L-BFGS driver (src/src/LBFGS.h, optimize() is inline in the header) -/

/-- Internal state of the LBFGS class: the scalar bookkeeping fields, the
diagonal approximation diag_ and working array w_ (LBFGS.h lines 166-172).
The Mcsrch pointer is modelled as a Bool (allocated or not). -/
structure LBFGSState where
  iflag : Int
  iscn : Int
  nfev : Int
  iycn : Int
  point : Int
  npt : Int
  iterN : Int
  info : Int
  ispt : Int
  isyt : Int
  iypt : Int
  maxfev : Int
  stp : ℚ
  stp1 : ℚ
  diag : List ℚ
  w : List ℚ
  mcsrch : Bool
deriving DecidableEq

/-- The LBFGS default constructor: every scalar zero, vectors empty,
no line-search object. -/
def initLBFGS : LBFGSState :=
  ⟨0, 0, 0, 0, 0, 0, 0, 0, 0, 0, 0, 0, 0, 0, [], [], false⟩

/-- Modelled from the spec: LBFGS::clear (declared in LBFGS.h, body not in
the header snapshot) resets the optimizer to its initial state and frees all
allocated memory. -/
def clearState (_ : LBFGSState) : LBFGSState := initLBFGS

/-- std::vector::resize: keep the first n existing entries, pad with zeros
up to length n. -/
def resizeVec (v : List ℚ) (n : ℕ) : List ℚ :=
  v.take n ++ List.replicate (n - v.length) 0

/-- The history size constant in LBFGS::optimize:
`static const int msize = 100;`. -/
def msize : ℕ := 100

/-- The first-call allocation in LBFGS::optimize: `iflag_ = 0;
w_.resize(size * (2 * msize + 1) + 2 * msize); diag_.resize(size);`. -/
def allocWorkspace (st : LBFGSState) (size : ℕ) : LBFGSState :=
  { st with iflag := 0,
            w := resizeVec st.w (size * (2 * msize + 1) + 2 * msize),
            diag := resizeVec st.diag size }

/-- The inner routine lbfgs_optimize (declared in LBFGS.h, body not in the
header snapshot): given size, x, f, g and the state, it may update x and the
whole internal state, in particular iflag_.  The driver claims only depend
on its interface, so it is abstracted as an arbitrary transition. -/
abbrev Inner := ℕ → List ℚ → ℚ → List ℚ → LBFGSState → List ℚ × LBFGSState

/-- The status dispatch at the end of LBFGS::optimize: iflag_ < 0 reports
failure (-1), iflag_ == 0 clears the state and terminates (0), otherwise the
caller must evaluate the next f and g (1). -/
def dispatch (x : List ℚ) (st : LBFGSState) : Int × List ℚ × LBFGSState :=
  if st.iflag < 0 then (-1, x, st)
  else if st.iflag = 0 then (0, x, clearState st)
  else (1, x, st)

/-- The state handed to lbfgs_optimize: the freshly allocated workspace on a
first call (w_ empty), the existing state otherwise. -/
def preState (st : LBFGSState) (size : ℕ) : LBFGSState :=
  if st.w = [] then allocWorkspace st size else st

/-- LBFGS::optimize from LBFGS.h lines 253-279: allocate on first call,
reject a size mismatch with -1, otherwise run lbfgs_optimize (abstracted as
`inner`) and dispatch on the resulting iflag_. -/
def optimize (inner : Inner) (st : LBFGSState) (size : ℕ)
    (x : List ℚ) (f : ℚ) (g : List ℚ) : Int × List ℚ × LBFGSState :=
  if st.w = [] then
    let p := inner size x f g (allocWorkspace st size)
    dispatch p.1 p.2
  else if st.diag.length ≠ size then
    (-1, x, st)
  else
    let p := inner size x f g st
    dispatch p.1 p.2

/-- An inner transition that leaves x and the state untouched (used to
evaluate the driver on concrete inputs). -/
def innerId : Inner := fun _ x _ _ st => (x, st)

/-- A state whose workspace was allocated for one parameter but whose diag_
vector is empty, exhibiting a size mismatch. -/
def stMismatch : LBFGSState := { initLBFGS with w := [0] }

/-! ## Parameter store (src/src/Param.h declares the interface; the member
bodies live in an implementation file that is not part of the header
snapshot, so they are modelled from the spec). -/

/-- Association-list lookup for the string-to-id dictionaries (Map in
Param.h). -/
def dictLookup : List (String × ℕ) → String → Option ℕ
  | [], _ => none
  | (k, v) :: rest, s => if k = s then some v else dictLookup rest s

/-- First index of a (state, feature) pair among the recorded weight
slots. -/
def pairIndex : List (ℕ × ℕ) → ℕ × ℕ → Option ℕ
  | [], _ => none
  | q :: rest, p =>
    if q = p then some 0
    else match pairIndex rest p with
      | some i => some (i + 1)
      | none => none

/-- Modelled from the spec: the Parameter store of Param.h — state and
feature dictionaries (m_StateMap/m_StateVec, m_FeatureMap/m_FeatureVec), the
reserved default state id m_default_oid, the recorded (state, feature)
weight slots, the weight/gradient/count vectors, the ParamIndex and the
frozen-after-finalize flag. -/
structure Parameter where
  stateMap : List (String × ℕ)
  stateVec : List String
  featMap : List (String × ℕ)
  featVec : List String
  default_oid : ℕ
  pairs : List (ℕ × ℕ)
  weight : List ℚ
  gradient : List ℚ
  count : List ℚ
  paramIndex : List (List (ℕ × ℕ))
  finalized : Bool
deriving DecidableEq

/-- Modelled from the spec: a fresh Parameter whose state dictionary always
contains the reserved default state (used when an unseen label appears at
test time). -/
def mkParameter (dflt : String) : Parameter :=
  ⟨[(dflt, 0)], [dflt], [], [], 0, [], [], [], [], [], false⟩

/-- Parameter::findState (declared Param.h line 334): id or not-found. -/
def Parameter.findState (p : Parameter) (s : String) : Option ℕ :=
  dictLookup p.stateMap s

/-- Parameter::findObs (declared Param.h line 333). -/
def Parameter.findObs (p : Parameter) (s : String) : Option ℕ :=
  dictLookup p.featMap s

/-- Parameter::getDefaultState (declared Param.h line 335). -/
def Parameter.getDefaultState (p : Parameter) : ℕ := p.default_oid

/-- Modelled from the spec: intern_state / Parameter::addNewState — return
the existing id when the name is present, otherwise assign the next unused
id and extend both dictionary directions. -/
def Parameter.addNewState (p : Parameter) (s : String) : ℕ × Parameter :=
  match dictLookup p.stateMap s with
  | some i => (i, p)
  | none =>
    (p.stateVec.length,
      { p with stateMap := (s, p.stateVec.length) :: p.stateMap,
               stateVec := p.stateVec ++ [s] })

/-- Modelled from the spec: intern_feature / Parameter::addNewObs. -/
def Parameter.addNewObs (p : Parameter) (s : String) : ℕ × Parameter :=
  match dictLookup p.featMap s with
  | some i => (i, p)
  | none =>
    (p.featVec.length,
      { p with featMap := (s, p.featVec.length) :: p.featMap,
               featVec := p.featVec ++ [s] })

/-- Modelled from the spec: record / Parameter::updateParam — an error after
finalize; otherwise allocate an observation-weight slot on first sighting
and return its weight index, duplicate calls returning the existing index. -/
def Parameter.updateParam (p : Parameter) (oid pid : ℕ) :
    Except String (ℕ × Parameter) :=
  if p.finalized then Except.error "updateParam after endUpdate"
  else match pairIndex p.pairs (oid, pid) with
    | some w => Except.ok (w, p)
    | none => Except.ok (p.pairs.length, { p with pairs := p.pairs ++ [(oid, pid)] })

/-- Modelled from the spec: the ParamIndex built at finalize time —
ParamIndex[y] is the list of (fid, weight index) recorded for state y. -/
def mkParamIndex (p : Parameter) : List (List (ℕ × ℕ)) :=
  (List.range p.stateVec.length).map fun y =>
    p.pairs.enum.filterMap fun iz =>
      if iz.2.1 = y then some (iz.2.2, iz.1) else none

/-- Modelled from the spec: finalize / Parameter::endUpdate — build
ParamIndex, allocate the weight, gradient and expected-count vectors as
zero-vectors of length W (the number of recorded slots) and freeze the
structure. -/
def Parameter.endUpdate (p : Parameter) : Parameter :=
  { p with weight := List.replicate p.pairs.length 0,
           gradient := List.replicate p.pairs.length 0,
           count := List.replicate p.pairs.length 0,
           paramIndex := mkParamIndex p,
           finalized := true }

/-- Modelled from the spec: test-time state resolution — a dictionary miss
is silently substituted with the default state and the error tally is left
untouched. -/
def Parameter.resolveState (p : Parameter) (s : String) (errs : ℕ) : ℕ × ℕ :=
  match p.findState s with
  | some y => (y, errs)
  | none => (p.getDefaultState, errs)

/-! ## Forward/backward lattice (TriCRF2::forward/backward/getPartitionZ are
declared in TriCRF2.h; their bodies are not in the header snapshot, so the
recurrences are modelled from the spec, section 4.C, in exact rational
arithmetic). -/

/-- Modelled from the spec: the forward recurrence —
alpha 0 y = R 0 y * M0 y and
alpha (t+1) y = R (t+1) y * sum over x of alpha t x * M (t+1) x y. -/
def alpha (R : ℕ → ℕ → ℚ) (M : ℕ → ℕ → ℕ → ℚ) (M0 : ℕ → ℚ) (S : ℕ) :
    ℕ → ℕ → ℚ
  | 0, y => R 0 y * M0 y
  | t + 1, y => R (t + 1) y * ∑ x ∈ Finset.range S, alpha R M M0 S t x * M (t + 1) x y

/-- Modelled from the spec: the backward recurrence, indexed from the end of
the sequence: betaAux k y = beta (T-1-k) y, with betaAux 0 y = 1 and
betaAux (k+1) y = sum over x of R (T-1-k) x * betaAux k x * M (T-1-k) y x. -/
def betaAux (R : ℕ → ℕ → ℚ) (M : ℕ → ℕ → ℕ → ℚ) (S T : ℕ) : ℕ → ℕ → ℚ
  | 0, _ => 1
  | k + 1, y => ∑ x ∈ Finset.range S, R (T - 1 - k) x * betaAux R M S T k x * M (T - 1 - k) y x

/-- Modelled from the spec: beta t y for a sequence of length T. -/
def betaV (R : ℕ → ℕ → ℚ) (M : ℕ → ℕ → ℕ → ℚ) (S T t y : ℕ) : ℚ :=
  betaAux R M S T (T - 1 - t) y

/-- Modelled from the spec: getPartitionZ — Z = sum over y of
alpha (T-1) y. -/
def getPartitionZ (R : ℕ → ℕ → ℚ) (M : ℕ → ℕ → ℕ → ℚ) (M0 : ℕ → ℚ)
    (S T : ℕ) : ℚ :=
  ∑ y ∈ Finset.range S, alpha R M M0 S (T - 1) y

/-- Modelled from the spec: the node marginal
p(y_t = y | x) = alpha t y * beta t y / Z. -/
def nodeMarginal (R : ℕ → ℕ → ℚ) (M : ℕ → ℕ → ℕ → ℚ) (M0 : ℕ → ℚ)
    (S T t y : ℕ) : ℚ :=
  alpha R M M0 S t y * betaV R M S T t y / getPartitionZ R M M0 S T

/-! ## Triangular Viterbi topic selection (TriCRF1::viterbiSearch and
TriCRF2::viterbiSearch are declared in the headers; their bodies are not in
the snapshot, so the per-topic dispatch is modelled from the spec). -/

/-- The running-argmax loop: replace the current best (index, value) only on
a strictly greater value, so earlier (lower) indices win ties. -/
def scanBest : ℕ × ℚ → ℕ → List ℚ → ℕ × ℚ
  | b, _, [] => b
  | b, i, v :: rest => scanBest (if b.2 < v then (i, v) else b) (i + 1) rest

/-- Index of the maximal value of a nonempty list, lowest index on ties. -/
def selectTopic : List ℚ → ℕ
  | [] => 0
  | v :: rest => (scanBest (0, v) 1 rest).1

/-- Modelled from the spec: the per-topic combined scores
gamma z * score z for topics z = 0 .. K-1, where score z is the Viterbi
score of the best path for topic z. -/
def topicScores (gamma score : ℕ → ℚ) (K : ℕ) : List ℚ :=
  (List.range K).map fun z => gamma z * score z

/-- Modelled from the spec: the topic returned by viterbiSearch —
argmax over z of gamma z * score z, ties broken by lower topic id. -/
def viterbiSearchTopic (gamma score : ℕ → ℚ) (K : ℕ) : ℕ :=
  selectTopic (topicScores gamma score K)

/-- A concrete topic prior with a tie between topics 0 and 2. -/
def gammaW : ℕ → ℚ := fun z => if z = 1 then 1 else 3

/-- A concrete per-topic Viterbi score with a tie between topics 0 and 2. -/
def scoreW : ℕ → ℚ := fun z => if z = 1 then 2 else 4

/-- Constant node potentials used to evaluate the lattice on a concrete
instance. -/
def oneR : ℕ → ℕ → ℚ := fun _ _ => 1

/-- Constant edge potentials. -/
def oneM : ℕ → ℕ → ℕ → ℚ := fun _ _ _ => 1

/-- Constant start potentials. -/
def oneM0 : ℕ → ℚ := fun _ => 1

/-! ## Theorems -/

/-- Data.appendAll grows the sequence count by the number of appended
sequences and the element count by the sum of their sizes, on top of
whatever the fields held before. -/
theorem Data.appendAll_spec {T : Type} [HasCount T] (l : List T) (d : Data T) :
    (d.appendAll l).size = d.size + l.length ∧
    (d.appendAll l).size_element = d.size_element + countSum l := by
  induction l generalizing d with
  | nil => simp [Data.appendAll, countSum, Data.size, Data.size_element]
  | cons e rest ih =>
    have h := ih (d.append e)
    have hfold : d.appendAll (e :: rest) = (d.append e).appendAll rest := rfl
    rw [hfold, h.1, h.2]
    constructor
    · simp only [Data.append, Data.size, List.length_append, List.length_cons,
        List.length_nil]
      omega
    · simp only [Data.append, Data.size_element, countSum, List.map_cons,
        List.sum_cons]
      omega

/-- Claim C10: TriSequence::size and TriStringSequence::size return the
length of the per-token sequence seq only — the topic event is never
counted — so Data::append and size_element accumulate only per-token
events. -/
theorem triSequence_size_excludes_topic (t : TriSequence)
    (u : TriStringSequence) (d : Data TriSequence) (e : Data TriStringSequence) :
    t.size = t.seq.length ∧
    u.size = u.seq.length ∧
    (d.append t).size_element = d.size_element + t.seq.length ∧
    (e.append u).size_element = e.size_element + u.seq.length := by
  refine ⟨rfl, rfl, ?_, ?_⟩ <;>
    simp [Data.append, Data.size_element, HasCount.csize, TriSequence.size,
      TriStringSequence.size]

/-- Claim C2 (code bug exhibit): the source never initializes n_element, so
a freshly constructed Data<Sequence> whose indeterminate field reads 7
reports size() = 1 but size_element() = 9 after appending a single two-event
sequence, instead of the documented total event count 2. -/
theorem data_size_element_uninitialized :
    (freshData7.appendAll [seqTwo]).size = 1 ∧
    (freshData7.appendAll [seqTwo]).size_element = 9 ∧ (9 : ℕ) ≠ 2 := by
  refine ⟨rfl, rfl, by decide⟩

/-- Length of resizeVec is always the requested length. -/
theorem resizeVec_length (v : List ℚ) (n : ℕ) : (resizeVec v n).length = n := by
  simp [resizeVec]
  omega

/-- Claim C4: on a first call (w_ empty) LBFGS::optimize allocates the
workspace for exactly msize = 100 curvature pairs — w_ of length
size * (2 * 100 + 1) + 2 * 100 and diag_ of length size — and then runs the
inner routine on the allocated state. -/
theorem optimize_firstcall_alloc (inner : Inner) (st : LBFGSState) (size : ℕ)
    (x : List ℚ) (f : ℚ) (g : List ℚ) (hw : st.w = []) :
    msize = 100 ∧
    (allocWorkspace st size).w.length = size * (2 * msize + 1) + 2 * msize ∧
    (allocWorkspace st size).diag.length = size ∧
    optimize inner st size x f g =
      dispatch (inner size x f g (allocWorkspace st size)).1
        (inner size x f g (allocWorkspace st size)).2 := by
  refine ⟨rfl, ?_, ?_, ?_⟩
  · simp [allocWorkspace, resizeVec_length]
  · simp [allocWorkspace, resizeVec_length]
  · simp [optimize, hw]

/-- Witness for optimize_firstcall_alloc at the freshly constructed
optimizer. -/
theorem optimize_firstcall_alloc_witness :
    initLBFGS.w = [] ∧
    (msize = 100 ∧
      (allocWorkspace initLBFGS 3).w.length = 3 * (2 * msize + 1) + 2 * msize ∧
      (allocWorkspace initLBFGS 3).diag.length = 3 ∧
      optimize innerId initLBFGS 3 [] 0 [] =
        dispatch (innerId 3 [] 0 [] (allocWorkspace initLBFGS 3)).1
          (innerId 3 [] 0 [] (allocWorkspace initLBFGS 3)).2) :=
  ⟨rfl, optimize_firstcall_alloc innerId initLBFGS 3 [] 0 [] rfl⟩

/-- Claim C9: once the internal arrays are allocated (w_ nonempty), a call
with a parameter count different from diag_.size() returns -1 immediately
and leaves the parameter vector x and the whole internal state unchanged. -/
theorem optimize_size_mismatch (inner : Inner) (st : LBFGSState) (size : ℕ)
    (x : List ℚ) (f : ℚ) (g : List ℚ) (hw : st.w ≠ [])
    (hd : st.diag.length ≠ size) :
    optimize inner st size x f g = (-1, x, st) := by
  simp [optimize, hw, hd]

/-- Witness for optimize_size_mismatch: workspace allocated with w_ = [0],
diag_ empty, called with size 1. -/
theorem optimize_size_mismatch_witness :
    stMismatch.w ≠ [] ∧ stMismatch.diag.length ≠ 1 ∧
    optimize innerId stMismatch 1 [5] 0 [2] = (-1, [5], stMismatch) :=
  ⟨by decide, by decide,
    optimize_size_mismatch innerId stMismatch 1 [5] 0 [2] (by decide) (by decide)⟩

/-- Claim C1: every call to LBFGS::optimize returns exactly one of 1
(continue), 0 (converged) or -1 (failed); it returns 0 exactly when the
inner routine leaves iflag_ = 0, -1 exactly when the size check fails or the
inner routine leaves iflag_ < 0, and 1 (caller must recompute f and g and
call back) exactly otherwise. -/
theorem optimize_status (inner : Inner) (st : LBFGSState) (size : ℕ)
    (x : List ℚ) (f : ℚ) (g : List ℚ) :
    ((optimize inner st size x f g).1 = 1 ∨ (optimize inner st size x f g).1 = 0 ∨
      (optimize inner st size x f g).1 = -1) ∧
    ((optimize inner st size x f g).1 = 0 ↔
      ¬(st.w ≠ [] ∧ st.diag.length ≠ size) ∧
        (inner size x f g (preState st size)).2.iflag = 0) ∧
    ((optimize inner st size x f g).1 = -1 ↔
      (st.w ≠ [] ∧ st.diag.length ≠ size) ∨
        (¬(st.w ≠ [] ∧ st.diag.length ≠ size) ∧
          (inner size x f g (preState st size)).2.iflag < 0)) ∧
    ((optimize inner st size x f g).1 = 1 ↔
      ¬(st.w ≠ [] ∧ st.diag.length ≠ size) ∧
        0 < (inner size x f g (preState st size)).2.iflag) := by
  by_cases hw : st.w = []
  · have hbad : ¬(st.w ≠ [] ∧ st.diag.length ≠ size) := by
      intro h; exact h.1 hw
    have hpre : preState st size = allocWorkspace st size := by
      simp [preState, hw]
    simp only [optimize, hw, if_pos, hpre]
    rcases lt_trichotomy (inner size x f g (allocWorkspace st size)).2.iflag 0 with
      h0 | h0 | h0
    · simp [dispatch, h0, hbad]
      omega
    · simp [dispatch, h0, hbad]
    · have h1 : ¬(inner size x f g (allocWorkspace st size)).2.iflag < 0 := by omega
      have h2 : (inner size x f g (allocWorkspace st size)).2.iflag ≠ 0 := by omega
      simp [dispatch, h1, h2, hbad, h0]
  · have hpre : preState st size = st := by simp [preState, hw]
    by_cases hd : st.diag.length = size
    · have hbad : ¬(st.w ≠ [] ∧ st.diag.length ≠ size) := by
        intro h; exact h.2 hd
      simp only [optimize, hw, if_neg, hpre]
      have hd2 : ¬st.diag.length ≠ size := by exact fun h => h hd
      simp only [hd2, if_false, if_neg]
      rcases lt_trichotomy (inner size x f g st).2.iflag 0 with h0 | h0 | h0
      · simp [dispatch, h0, hbad]
        omega
      · simp [dispatch, h0, hbad]
      · have h1 : ¬(inner size x f g st).2.iflag < 0 := by omega
        have h2 : (inner size x f g st).2.iflag ≠ 0 := by omega
        simp [dispatch, h1, h2, hbad, h0]
    · have hbad : st.w ≠ [] ∧ st.diag.length ≠ size := ⟨hw, hd⟩
      simp [optimize, hw, hd, hbad]

/-- Claim C5: finalize (endUpdate) allocates the weight vector, the gradient
vector and the expected-count vector as zero vectors of length W (the number
of recorded weight slots), builds ParamIndex, and makes every subsequent
record (updateParam) call an error. -/
theorem endUpdate_finalizes (p : Parameter) (oid pid : ℕ) :
    p.endUpdate.weight = List.replicate p.pairs.length 0 ∧
    p.endUpdate.gradient = List.replicate p.pairs.length 0 ∧
    p.endUpdate.count = List.replicate p.pairs.length 0 ∧
    p.endUpdate.paramIndex = mkParamIndex p ∧
    p.endUpdate.finalized = true ∧
    p.endUpdate.updateParam oid pid = Except.error "updateParam after endUpdate" := by
  refine ⟨rfl, rfl, rfl, rfl, rfl, ?_⟩
  simp [Parameter.updateParam, Parameter.endUpdate]

/-- Claim C6: the state dictionary of a fresh Parameter contains the
reserved default state, and a test-time lookup of a name absent from the
dictionary reports not-found, substitutes the default state, and leaves the
error tally untouched. -/
theorem findState_default_substitution (dflt : String) (p : Parameter)
    (key : String) (errs : ℕ) (hmiss : p.findState key = none) :
    (mkParameter dflt).findState dflt = some ((mkParameter dflt).getDefaultState) ∧
    p.resolveState key errs = (p.getDefaultState, errs) := by
  constructor
  · simp [mkParameter, Parameter.findState, Parameter.getDefaultState, dictLookup]
  · simp [Parameter.resolveState, hmiss]

/-- Witness for findState_default_substitution: the dictionary holds only
the default state and an unseen test-time label misses. -/
theorem findState_default_substitution_witness :
    (mkParameter "DEFAULT").findState "CITY-B" = none ∧
    ((mkParameter "DEFAULT").findState "DEFAULT" =
        some ((mkParameter "DEFAULT").getDefaultState) ∧
      (mkParameter "DEFAULT").resolveState "CITY-B" 6 =
        ((mkParameter "DEFAULT").getDefaultState, 6)) :=
  ⟨by decide,
    findState_default_substitution "DEFAULT" (mkParameter "DEFAULT") "CITY-B" 6
      (by decide)⟩

/-- Claim C3: addNewState and addNewObs are idempotent — a first call with
an absent name assigns the next unused id, a second call with the same name
returns the same id without changing the store, and ids already assigned
never change. -/
theorem intern_idempotent (p : Parameter) (s u : String)
    (hs : p.findState s = none) (hu : p.findObs u = none) :
    (p.addNewState s).1 = p.stateVec.length ∧
    ((p.addNewState s).2.addNewState s).1 = (p.addNewState s).1 ∧
    ((p.addNewState s).2.addNewState s).2 = (p.addNewState s).2 ∧
    (∀ t i, p.findState t = some i → (p.addNewState s).2.findState t = some i) ∧
    (p.addNewObs u).1 = p.featVec.length ∧
    ((p.addNewObs u).2.addNewObs u).1 = (p.addNewObs u).1 ∧
    ((p.addNewObs u).2.addNewObs u).2 = (p.addNewObs u).2 ∧
    (∀ t i, p.findObs t = some i → (p.addNewObs u).2.findObs t = some i) := by
  simp only [Parameter.findState] at hs
  simp only [Parameter.findObs] at hu
  refine ⟨?_, ?_, ?_, ?_, ?_, ?_, ?_, ?_⟩
  · simp [Parameter.addNewState, hs]
  · simp [Parameter.addNewState, hs, dictLookup]
  · simp [Parameter.addNewState, hs, dictLookup]
  · intro t i ht
    simp only [Parameter.findState] at ht ⊢
    have hne : s ≠ t := by
      intro he; rw [he] at hs; rw [hs] at ht; exact Option.noConfusion ht
    simp [Parameter.addNewState, hs, dictLookup, hne, ht]
  · simp [Parameter.addNewObs, hu]
  · simp [Parameter.addNewObs, hu, dictLookup]
  · simp [Parameter.addNewObs, hu, dictLookup]
  · intro t i ht
    simp only [Parameter.findObs] at ht ⊢
    have hne : u ≠ t := by
      intro he; rw [he] at hu; rw [hu] at ht; exact Option.noConfusion ht
    simp [Parameter.addNewObs, hu, dictLookup, hne, ht]

/-- Witness for intern_idempotent at a fresh Parameter with absent state and
feature names. -/
theorem intern_idempotent_witness :
    (mkParameter "O").findState "B-PER" = none ∧
    (mkParameter "O").findObs "word=john" = none ∧
    (((mkParameter "O").addNewState "B-PER").1 =
        (mkParameter "O").stateVec.length ∧
      (((mkParameter "O").addNewState "B-PER").2.addNewState "B-PER").1 =
        ((mkParameter "O").addNewState "B-PER").1 ∧
      (((mkParameter "O").addNewState "B-PER").2.addNewState "B-PER").2 =
        ((mkParameter "O").addNewState "B-PER").2 ∧
      (∀ t i, (mkParameter "O").findState t = some i →
        ((mkParameter "O").addNewState "B-PER").2.findState t = some i) ∧
      ((mkParameter "O").addNewObs "word=john").1 =
        (mkParameter "O").featVec.length ∧
      (((mkParameter "O").addNewObs "word=john").2.addNewObs "word=john").1 =
        ((mkParameter "O").addNewObs "word=john").1 ∧
      (((mkParameter "O").addNewObs "word=john").2.addNewObs "word=john").2 =
        ((mkParameter "O").addNewObs "word=john").2 ∧
      (∀ t i, (mkParameter "O").findObs t = some i →
        ((mkParameter "O").addNewObs "word=john").2.findObs t = some i)) :=
  ⟨by decide, by decide,
    intern_idempotent (mkParameter "O") "B-PER" "word=john" (by decide) (by decide)⟩

/-- The running-argmax value dominates the seed value and every scanned
value. -/
theorem scanBest_le (l : List ℚ) : ∀ (b : ℕ × ℚ) (i : ℕ),
    b.2 ≤ (scanBest b i l).2 ∧ ∀ v ∈ l, v ≤ (scanBest b i l).2 := by
  induction l with
  | nil => intro b i; exact ⟨le_refl _, by simp⟩
  | cons v rest ih =>
    intro b i
    have h := ih (if b.2 < v then (i, v) else b) (i + 1)
    have hbb : b.2 ≤ (if b.2 < v then (i, v) else b).2 := by
      by_cases hb : b.2 < v
      · simp only [hb, if_true]; exact le_of_lt hb
      · simp [hb]
    have hvb : v ≤ (if b.2 < v then (i, v) else b).2 := by
      by_cases hb : b.2 < v
      · simp [hb]
      · simp only [hb, if_false]; exact le_of_not_lt hb
    refine ⟨le_trans hbb h.1, ?_⟩
    intro u hu
    rcases List.mem_cons.mp hu with h1 | h1
    · subst h1; exact le_trans hvb h.1
    · exact h.2 u h1

/-- The running-argmax loop either keeps the seed or lands on a scanned
index whose value strictly exceeds the seed and every earlier scanned
value. -/
theorem scanBest_eq (l : List ℚ) : ∀ (b : ℕ × ℚ) (i : ℕ),
    scanBest b i l = b ∨
    ∃ k, k < l.length ∧ scanBest b i l = (i + k, l.getD k 0) ∧
      b.2 < l.getD k 0 ∧ ∀ j, j < k → l.getD j 0 < l.getD k 0 := by
  induction l with
  | nil => intro b i; left; rfl
  | cons v rest ih =>
    intro b i
    have hstep : scanBest b i (v :: rest) =
        scanBest (if b.2 < v then (i, v) else b) (i + 1) rest := rfl
    have hbb : b.2 ≤ (if b.2 < v then (i, v) else b).2 := by
      by_cases hb : b.2 < v
      · simp only [hb, if_true]; exact le_of_lt hb
      · simp [hb]
    have hvb : v ≤ (if b.2 < v then (i, v) else b).2 := by
      by_cases hb : b.2 < v
      · simp [hb]
      · simp only [hb, if_false]; exact le_of_not_lt hb
    rcases ih (if b.2 < v then (i, v) else b) (i + 1) with h | ⟨k, hk, heq, hlt, hprev⟩
    · by_cases hb : b.2 < v
      · right
        refine ⟨0, by simp, ?_, by simpa using hb, fun j hj => absurd hj (Nat.not_lt_zero j)⟩
        rw [hstep, h]
        simp [hb]
      · left
        rw [hstep, h]
        simp [hb]
    · right
      refine ⟨k + 1, by simpa using hk, ?_, ?_, ?_⟩
      · rw [hstep, heq]
        simp only [List.getD_cons_succ, Prod.mk.injEq]
        exact ⟨by omega, trivial⟩
      · simp only [List.getD_cons_succ]
        exact lt_of_le_of_lt hbb hlt
      · intro j hj
        match j with
        | 0 =>
          simp only [List.getD_cons_zero, List.getD_cons_succ]
          exact lt_of_le_of_lt hvb hlt
        | j' + 1 =>
          simp only [List.getD_cons_succ]
          exact hprev j' (by omega)

/-- selectTopic returns a valid index whose value is maximal, and the least
index attaining the maximum. -/
theorem selectTopic_spec (l : List ℚ) (hne : l ≠ []) :
    selectTopic l < l.length ∧
    (∀ j, j < l.length → l.getD j 0 ≤ l.getD (selectTopic l) 0) ∧
    (∀ j, j < l.length → l.getD j 0 = l.getD (selectTopic l) 0 →
      selectTopic l ≤ j) := by
  match l with
  | [] => exact absurd rfl hne
  | v :: rest =>
    have hle := scanBest_le rest (0, v) 1
    rcases scanBest_eq rest (0, v) 1 with h | ⟨k, hk, heq, hlt, hprev⟩
    · have hsel : selectTopic (v :: rest) = 0 := by
        simp [selectTopic, h]
      rw [hsel]
      refine ⟨by simp, ?_, fun j _ _ => Nat.zero_le j⟩
      intro j hj
      match j with
      | 0 => simp
      | j' + 1 =>
        have hj' : j' < rest.length := by simpa using hj
        have hmem : rest.getD j' 0 ∈ rest := by
          rw [List.getD_eq_getElem rest 0 hj']
          exact List.getElem_mem hj'
        have h2 := hle.2 _ hmem
        rw [h] at h2
        simpa using h2
    · have hsel : selectTopic (v :: rest) = 1 + k := by
        simp [selectTopic, heq]
      have hval : (v :: rest).getD (1 + k) 0 = rest.getD k 0 := by
        rw [Nat.add_comm 1 k]
        simp [List.getD_cons_succ]
      rw [hsel]
      refine ⟨?_, ?_, ?_⟩
      · simp only [List.length_cons]
        omega
      · intro j hj
        rw [hval]
        match j with
        | 0 =>
          simp only [List.getD_cons_zero]
          exact le_of_lt (by simpa using hlt)
        | j' + 1 =>
          simp only [List.getD_cons_succ]
          have hj' : j' < rest.length := by simpa using hj
          have hmem : rest.getD j' 0 ∈ rest := by
            rw [List.getD_eq_getElem rest 0 hj']
            exact List.getElem_mem hj'
          have h2 := hle.2 _ hmem
          rw [heq] at h2
          exact h2
      · intro j hj hjv
        rw [hval] at hjv
        match j with
        | 0 =>
          exfalso
          simp only [List.getD_cons_zero] at hjv
          have hlt2 : v < rest.getD k 0 := by simpa using hlt
          rw [hjv] at hlt2
          exact lt_irrefl _ hlt2
        | j' + 1 =>
          simp only [List.getD_cons_succ] at hjv
          by_contra hcon
          push_neg at hcon
          have hjk : j' < k := by omega
          have h3 := hprev j' hjk
          rw [hjv] at h3
          exact lt_irrefl _ h3

/-- topicScores has one entry per topic. -/
theorem topicScores_length (gamma score : ℕ → ℚ) (K : ℕ) :
    (topicScores gamma score K).length = K := by
  simp [topicScores]

/-- Entry z of topicScores is gamma z * score z. -/
theorem topicScores_getD (gamma score : ℕ → ℚ) (K z : ℕ) (hz : z < K) :
    (topicScores gamma score K).getD z 0 = gamma z * score z := by
  have hz2 : z < (topicScores gamma score K).length := by
    rw [topicScores_length]; exact hz
  rw [List.getD_eq_getElem _ 0 hz2]
  simp [topicScores]

/-- Claim C7: the topic returned for a triangular model is a valid topic id
maximizing gamma z times the per-topic Viterbi score, and among topics
attaining that maximum it is the one with the lowest id. -/
theorem viterbiSearch_topic_argmax (gamma score : ℕ → ℚ) (K : ℕ) (hK : 0 < K) :
    viterbiSearchTopic gamma score K < K ∧
    (∀ z, z < K → gamma z * score z ≤
      gamma (viterbiSearchTopic gamma score K) *
        score (viterbiSearchTopic gamma score K)) ∧
    (∀ z, z < K → gamma z * score z =
      gamma (viterbiSearchTopic gamma score K) *
        score (viterbiSearchTopic gamma score K) →
      viterbiSearchTopic gamma score K ≤ z) := by
  have hne : topicScores gamma score K ≠ [] := by
    intro h
    have hl := topicScores_length gamma score K
    rw [h] at hl
    simp at hl
    omega
  obtain ⟨h1, h2, h3⟩ := selectTopic_spec (topicScores gamma score K) hne
  rw [topicScores_length] at h1
  have hsel : viterbiSearchTopic gamma score K = selectTopic (topicScores gamma score K) := rfl
  refine ⟨by rw [hsel]; exact h1, ?_, ?_⟩
  · intro z hz
    have hle := h2 z (by rw [topicScores_length]; exact hz)
    rw [topicScores_getD gamma score K z hz] at hle
    rw [topicScores_getD gamma score K _ h1] at hle
    rw [hsel]
    exact hle
  · intro z hz heqv
    rw [hsel]
    apply h3 z (by rw [topicScores_length]; exact hz)
    rw [topicScores_getD gamma score K z hz,
      topicScores_getD gamma score K _ h1]
    rw [hsel] at heqv
    exact heqv

/-- Witness for viterbiSearch_topic_argmax: three topics where topics 0 and
2 tie at combined score 12 and topic 1 scores 2; the lower id 0 is
chosen. -/
theorem viterbiSearch_topic_argmax_witness :
    0 < 3 ∧
    (viterbiSearchTopic gammaW scoreW 3 < 3 ∧
      (∀ z, z < 3 → gammaW z * scoreW z ≤
        gammaW (viterbiSearchTopic gammaW scoreW 3) *
          scoreW (viterbiSearchTopic gammaW scoreW 3)) ∧
      (∀ z, z < 3 → gammaW z * scoreW z =
        gammaW (viterbiSearchTopic gammaW scoreW 3) *
          scoreW (viterbiSearchTopic gammaW scoreW 3) →
        viterbiSearchTopic gammaW scoreW 3 ≤ z)) :=
  ⟨by decide, viterbiSearch_topic_argmax gammaW scoreW 3 (by decide)⟩

/-- The alpha-beta product sum is invariant along the lattice: at every
distance k from the last position it equals the partition function. -/
theorem alphaBeta_sum_invariant (R : ℕ → ℕ → ℚ) (M : ℕ → ℕ → ℕ → ℚ)
    (M0 : ℕ → ℚ) (S T : ℕ) :
    ∀ k, k ≤ T - 1 →
      ∑ y ∈ Finset.range S,
          alpha R M M0 S (T - 1 - k) y * betaAux R M S T k y =
        getPartitionZ R M M0 S T := by
  intro k
  induction k with
  | zero =>
    intro _
    simp [betaAux, getPartitionZ]
  | succ k ih =>
    intro hk
    have hk2 : k ≤ T - 1 := Nat.le_of_succ_le hk
    have ht : T - 1 - k = T - 1 - (k + 1) + 1 := by omega
    rw [← ih hk2, ht]
    have hbeta : ∀ y, betaAux R M S T (k + 1) y =
        ∑ x ∈ Finset.range S,
          R (T - 1 - (k + 1) + 1) x * betaAux R M S T k x *
            M (T - 1 - (k + 1) + 1) y x := by
      intro y
      rw [betaAux, ht]
    calc ∑ y ∈ Finset.range S,
            alpha R M M0 S (T - 1 - (k + 1)) y * betaAux R M S T (k + 1) y
        = ∑ y ∈ Finset.range S, ∑ x ∈ Finset.range S,
            alpha R M M0 S (T - 1 - (k + 1)) y *
              (R (T - 1 - (k + 1) + 1) x * betaAux R M S T k x *
                M (T - 1 - (k + 1) + 1) y x) := by
          refine Finset.sum_congr rfl fun y _ => ?_
          rw [hbeta y, Finset.mul_sum]
      _ = ∑ x ∈ Finset.range S, ∑ y ∈ Finset.range S,
            alpha R M M0 S (T - 1 - (k + 1)) y *
              (R (T - 1 - (k + 1) + 1) x * betaAux R M S T k x *
                M (T - 1 - (k + 1) + 1) y x) := Finset.sum_comm
      _ = ∑ x ∈ Finset.range S,
            alpha R M M0 S (T - 1 - (k + 1) + 1) x * betaAux R M S T k x := by
          refine Finset.sum_congr rfl fun x _ => ?_
          rw [show alpha R M M0 S (T - 1 - (k + 1) + 1) x =
              R (T - 1 - (k + 1) + 1) x * ∑ y ∈ Finset.range S,
                alpha R M M0 S (T - 1 - (k + 1)) y *
                  M (T - 1 - (k + 1) + 1) y x from rfl]
          rw [Finset.mul_sum, Finset.sum_mul]
          refine Finset.sum_congr rfl fun y _ => ?_
          ring

/-- At any position t of a length-T lattice the alpha-beta product sum
equals the partition function. -/
theorem alphaBeta_const (R : ℕ → ℕ → ℚ) (M : ℕ → ℕ → ℕ → ℚ) (M0 : ℕ → ℚ)
    (S T t : ℕ) (ht : t < T) :
    ∑ y ∈ Finset.range S, alpha R M M0 S t y * betaV R M S T t y =
      getPartitionZ R M M0 S T := by
  have hk : T - 1 - (T - 1 - t) = t := by omega
  have h := alphaBeta_sum_invariant R M M0 S T (T - 1 - t) (by omega)
  rw [hk] at h
  simpa [betaV] using h

/-- Claim C8: whenever the partition function is nonzero, the node marginals
alpha t y * beta t y / Z sum to 1 over all states y at every position t —
exactly, in the rational-arithmetic model, hence in particular to within
1e-9 relative error. -/
theorem nodeMarginal_sums_to_one (R : ℕ → ℕ → ℚ) (M : ℕ → ℕ → ℕ → ℚ)
    (M0 : ℕ → ℚ) (S T t : ℕ) (ht : t < T)
    (hZ : getPartitionZ R M M0 S T ≠ 0) :
    ∑ y ∈ Finset.range S, nodeMarginal R M M0 S T t y = 1 := by
  have h := alphaBeta_const R M M0 S T t ht
  simp only [nodeMarginal]
  rw [← Finset.sum_div, h, div_self hZ]

/-- Witness for nodeMarginal_sums_to_one on a two-state, two-position
lattice with all potentials 1 (partition function 4). -/
theorem nodeMarginal_sums_to_one_witness :
    (0 < 2 ∧ getPartitionZ oneR oneM oneM0 2 2 ≠ 0) ∧
    ∑ y ∈ Finset.range 2, nodeMarginal oneR oneM oneM0 2 2 0 y = 1 :=
  ⟨⟨by decide,
      by norm_num [getPartitionZ, alpha, oneR, oneM, oneM0, Finset.sum_range_succ]⟩,
    nodeMarginal_sums_to_one oneR oneM oneM0 2 2 0 (by decide)
      (by norm_num [getPartitionZ, alpha, oneR, oneM, oneM0, Finset.sum_range_succ])⟩

end TriCRF
